import Mathlib

/-!
Verification of the serial temperature receiver (`Reciever.py`).

This file gives a shallow embedding of the behavioural core of the
receiver: the port validator `check_port_for_data`, the candidate
enumeration inside `find_correct_port`, the per-tick ingestion loop of
`update_graph` (line draining, decoding, float parsing, history and CSV
appends, flushing), the view-window selection, the smoothing branch, and
`apply_settings`.  Library built-ins used by the source (Python's
`str.strip`, `float`, `int`, `bytes.decode`, numpy's `linspace`, scipy's
spline) are modelled explicitly; where a model idealises a built-in the
doc comment of the definition says exactly how.
-/

/-- Whitespace characters removed by Python's `str.strip()` (models the
ASCII part of Python's notion of whitespace; the repository's data is
ASCII). -/
def isPySpace (c : Char) : Bool :=
  c = ' ' ∨ c = '\t' ∨ c = '\n' ∨ c = '\r' ∨ c = '\x0b' ∨ c = '\x0c'

/-- Model of Python's `str.strip()`: drop whitespace from both ends. -/
def pyStrip (s : String) : String :=
  ⟨((s.data.dropWhile isPySpace).reverse.dropWhile isPySpace).reverse⟩

/-- The value domain of Python's `float`: finite values are modelled as
exact rationals (IEEE rounding is immaterial to every property proved
here), plus the two infinities and NaN, which Python's `float()` parser
also produces. -/
inductive PyFloat where
  | finite (q : ℚ)
  | inf (neg : Bool)
  | nan
deriving DecidableEq

/-- Decimal value of a list of digit characters (most significant first). -/
def digitsToNat (cs : List Char) : Nat :=
  cs.foldl (fun a c => 10 * a + (c.toNat - 48)) 0

/-- Consume an optional leading sign; return (isNegative, rest). -/
def stripSignChar : List Char → Bool × List Char
  | '+' :: t => (false, t)
  | '-' :: t => (true, t)
  | t => (false, t)

/-- Parse the mantissa part of a Python float literal: `digits`,
`digits.digits`, `digits.` or `.digits` (at least one digit overall).
Returns the exact rational value and the unconsumed rest. -/
def parseMantissa (cs : List Char) : Option (ℚ × List Char) :=
  let ip := cs.takeWhile Char.isDigit
  let r1 := cs.dropWhile Char.isDigit
  match r1 with
  | '.' :: t =>
    let fp := t.takeWhile Char.isDigit
    let r2 := t.dropWhile Char.isDigit
    if ip.isEmpty && fp.isEmpty then none
    else some ((digitsToNat ip : ℚ) + (digitsToNat fp : ℚ) / (10 : ℚ) ^ fp.length, r2)
  | _ => if ip.isEmpty then none else some ((digitsToNat ip : ℚ), r1)

/-- Parse the optional exponent suffix `[eE][+-]?digits` of a Python float
literal; the whole rest must be consumed. -/
def parseExponent (q : ℚ) : List Char → Option ℚ
  | [] => some q
  | e :: t =>
    if e = 'e' ∨ e = 'E' then
      let p := stripSignChar t
      let ds := p.2.takeWhile Char.isDigit
      let r := p.2.dropWhile Char.isDigit
      if ds.isEmpty ∨ ¬ r.isEmpty then none
      else
        let ex : ℤ := if p.1 then -(digitsToNat ds : ℤ) else (digitsToNat ds : ℤ)
        some (q * (10 : ℚ) ^ ex)
    else none

/-- Lower-case a character list (for the case-insensitive special tokens). -/
def lowerChars (cs : List Char) : List Char := cs.map Char.toLower

/-- Model of Python's `float(s)` built-in: strip whitespace, optional
sign, then either a case-insensitive `inf`/`infinity`/`nan` token or a
decimal literal with optional fraction and exponent.  Returns `none`
exactly when `float(s)` raises `ValueError`.  (Digit-group underscores
and non-ASCII digits, which the repository's data never contains, are
not modelled.) -/
def pyFloat? (s : String) : Option PyFloat :=
  let cs := (pyStrip s).data
  let p := stripSignChar cs
  let rest := p.2
  if rest.isEmpty then none
  else if lowerChars rest = "inf".data ∨ lowerChars rest = "infinity".data then
    some (.inf p.1)
  else if lowerChars rest = "nan".data then some .nan
  else
    match parseMantissa rest with
    | none => none
    | some (m, r) =>
      match parseExponent m r with
      | none => none
      | some q => some (.finite (if p.1 then -q else q))

/-- Model of Python's `int(s)` built-in (base 10): strip whitespace,
optional sign, then one or more decimal digits consuming the whole
string.  Returns `none` exactly when `int(s)` raises `ValueError`. -/
def pyInt? (s : String) : Option Int :=
  let cs := (pyStrip s).data
  let p := stripSignChar cs
  if p.2.isEmpty ∨ ¬ (p.2.all Char.isDigit) then none
  else
    let n : Int := (digitsToNat p.2 : Int)
    some (if p.1 then -n else n)

example : (pyFloat? "21.5").isSome = true := by decide
example : pyFloat? "garbage" = none := by decide
example : (pyFloat? " -1.5e2 ").isSome = true := by decide
example : pyFloat? "nan" = some .nan := by decide
example : pyFloat? "-inf" = some (.inf true) := by decide
example : pyFloat? "Infinity" = some (.inf false) := by decide
example : pyFloat? "" = none := by decide
example : pyFloat? "." = none := by decide
example : pyFloat? "1e" = none := by decide
example : pyFloat? "7" = some (.finite 7) := by decide
example : pyInt? "50" = some 50 := by decide
example : pyInt? "2.5" = none := by decide
example : pyInt? "-7" = some (-7) := by decide

/-- Continuation byte of a UTF-8 sequence: `0x80 ≤ b ≤ 0xBF`. -/
def contByte (b : Nat) : Bool := 0x80 ≤ b ∧ b ≤ 0xBF

/-- Decode one UTF-8 code point from the front of a byte list, returning
the character and the remaining bytes, or `none` if the bytes do not
start with a well-formed sequence (including overlong encodings and
surrogate code points, which UTF-8 forbids). -/
def decodeOne : List Nat → Option (Char × List Nat)
  | [] => none
  | b0 :: rest =>
    if b0 < 0x80 then some (Char.ofNat b0, rest)
    else if 0xC2 ≤ b0 ∧ b0 ≤ 0xDF then
      match rest with
      | b1 :: r =>
        if contByte b1 then some (Char.ofNat ((b0 - 0xC0) * 0x40 + (b1 - 0x80)), r)
        else none
      | [] => none
    else if 0xE0 ≤ b0 ∧ b0 ≤ 0xEF then
      match rest with
      | b1 :: b2 :: r =>
        if (if b0 = 0xE0 then 0xA0 ≤ b1 ∧ b1 ≤ 0xBF
            else if b0 = 0xED then 0x80 ≤ b1 ∧ b1 ≤ 0x9F
            else contByte b1) ∧ contByte b2 then
          some (Char.ofNat ((b0 - 0xE0) * 0x1000 + (b1 - 0x80) * 0x40 + (b2 - 0x80)), r)
        else none
      | _ => none
    else if 0xF0 ≤ b0 ∧ b0 ≤ 0xF4 then
      match rest with
      | b1 :: b2 :: b3 :: r =>
        if (if b0 = 0xF0 then 0x90 ≤ b1 ∧ b1 ≤ 0xBF
            else if b0 = 0xF4 then 0x80 ≤ b1 ∧ b1 ≤ 0x8F
            else contByte b1) ∧ contByte b2 ∧ contByte b3 then
          some (Char.ofNat ((b0 - 0xF0) * 0x40000 + (b1 - 0x80) * 0x1000
                + (b2 - 0x80) * 0x40 + (b3 - 0x80)), r)
        else none
      | _ => none
    else none

/-- Decoding one code point consumes at least one byte. -/
theorem decodeOne_length_lt {l : List Nat} {c : Char} {r : List Nat}
    (h : decodeOne l = some (c, r)) : r.length < l.length := by
  match l with
  | [] => simp [decodeOne] at h
  | b0 :: rest =>
    unfold decodeOne at h
    repeat' split at h
    all_goals simp_all
    all_goals omega

/-- Strict UTF-8 decoding with explicit fuel (structural recursion, so
the kernel can evaluate it).  By `decodeOne_length_lt` every step
consumes at least one byte, so fuel equal to the byte count never runs
out and the fuel-exhausted branch is unreachable for the wrapper below. -/
def utf8DecodeCharsAux : Nat → List Nat → Option (List Char)
  | _, [] => some []
  | 0, _ :: _ => none
  | fuel + 1, b :: bs =>
    match decodeOne (b :: bs) with
    | some (c, r) =>
      match utf8DecodeCharsAux fuel r with
      | some cs => some (c :: cs)
      | none => none
    | none => none

/-- Model of Python's strict `bytes.decode('utf-8')` (`Reciever.py`
line 435): returns the decoded string, or `none` exactly when Python
raises `UnicodeDecodeError` (which is a subclass of `ValueError`). -/
def utf8Decode? (l : List Nat) : Option String :=
  (utf8DecodeCharsAux l.length l).map fun cs => ⟨cs⟩

/-- Best-effort UTF-8 decoding with explicit fuel: undecodable bytes are
dropped and decoding continues, so it never fails. -/
def utf8DecodeIgnoreAux : Nat → List Nat → List Char
  | _, [] => []
  | 0, _ :: _ => []
  | fuel + 1, b :: bs =>
    match decodeOne (b :: bs) with
    | some (c, r) => c :: utf8DecodeIgnoreAux fuel r
    | none => utf8DecodeIgnoreAux fuel bs

/-- Model of Python's `bytes.decode('utf-8', errors='ignore')`
(`Reciever.py` line 145): malformed bytes are dropped, decoding never
raises.  (CPython may skip a whole malformed sequence at once where this
model skips byte by byte; no property below depends on the difference.) -/
def utf8DecodeIgnore (l : List Nat) : String :=
  ⟨utf8DecodeIgnoreAux l.length l⟩

/-- UTF-8 bytes of an ASCII string (used to build concrete byte lines). -/
def ascii (s : String) : List Nat := s.data.map Char.toNat

example : utf8Decode? (ascii "21.5") = some "21.5" := by decide
example : utf8Decode? [0x32, 0xFF] = none := by decide
example : utf8DecodeIgnore [0x32, 0xFF] = "2" := by decide
example : utf8DecodeIgnore [0xFF, 0xFE] = "" := by decide

/-- Number of the validator's line reads that parse as floats
(`Reciever.py` lines 141-150): each read is decoded with
`errors='ignore'`, stripped, empty lines are skipped, and `float(line)`
is attempted; a `ValueError` is caught per read and counting continues. -/
def countValidFloats : List (List Nat) → Nat
  | [] => 0
  | l :: rest =>
    let s := pyStrip (utf8DecodeIgnore l)
    if s = "" then countValidFloats rest
    else (if (pyFloat? s).isSome then 1 else 0) + countValidFloats rest

/-- Outcome of probing one port: whether the open connection is returned
to the caller, whether the open succeeded at all, and whether `close()`
was called on the handle before returning. -/
structure ProbeOut where
  result : Option String
  opened : Bool
  closed : Bool
deriving DecidableEq

/-- Model of `check_port_for_data` (`Reciever.py` lines 126-171).
Inputs: whether `serial.Serial(...)` succeeds (`openOk`), the value of
`ser.in_waiting` after the input buffer is reset and the 1.1 s settle
delay has passed (`inWaiting`), and the raw bytes returned by the four
`ser.readline()` calls (`reads`).  The port name is returned with the
connection on acceptance. -/
def check_port_for_data (port : String) (openOk : Bool) (inWaiting : Nat)
    (reads : List (List Nat)) : ProbeOut :=
  if openOk = false then ⟨none, false, false⟩
  else if inWaiting = 0 then ⟨none, true, true⟩
  else if 2 ≤ countValidFloats reads then ⟨some port, true, false⟩
  else ⟨none, true, true⟩

/-- The brute-force upper bound `MAX_COM_PORT_CHECK` (`Reciever.py`
line 38). -/
def MAX_COM_PORT_CHECK : Nat := 32

/-- The brute-force candidate name `f"COM{i}"` (`Reciever.py` line 187). -/
def comName (i : Nat) : String := "COM" ++ toString i

/-- One step of the brute-force loop (`Reciever.py` lines 186-189):
append `COM{i}` unless it is already among the candidates. -/
def addBrute (acc : List String) (i : Nat) : List String :=
  if comName i ∈ acc then acc else acc ++ [comName i]

/-- Candidate accumulation of `find_correct_port` (`Reciever.py` lines
184-189): the host-reported ports followed by the brute-force loop over
`i = 1 .. M`. -/
def buildCandidates (system_ports : List String) (M : Nat) : List String :=
  (List.range' 1 M).foldl addBrute system_ports

/-- The de-duplication pass of `find_correct_port` (`Reciever.py` lines
191-196): keep the first occurrence of each name, tracking seen names. -/
def dedupe (seen : List String) : List String → List String
  | [] => []
  | x :: rest => if x ∈ seen then dedupe seen rest else x :: dedupe (x :: seen) rest

/-- The full candidate list `final_list` computed by `find_correct_port`
(`Reciever.py` lines 181-198) from the host-reported ports and the
brute-force maximum. -/
def find_correct_port_candidates (system_ports : List String) (M : Nat) : List String :=
  dedupe [] (buildCandidates system_ports M)

/-- Numeric suffix of a port name of shape `COM<digits>` (0 when the
name has no numeric suffix); used to state the ordering claims. -/
def numericSuffix (s : String) : Nat :=
  let ds := s.data.drop 3
  if ds ≠ [] ∧ ds.all Char.isDigit then digitsToNat ds else 0

example : find_correct_port_candidates ["COM7", "COM3"] 4 =
    ["COM7", "COM3", "COM1", "COM2", "COM4"] := by decide
example : numericSuffix "COM7" = 7 := by decide

/-- State mutated by one ingestion tick: the two parallel history
sequences `full_history_x` / `full_history_y` (`Reciever.py` lines
49-50) and the rows written so far to the CSV log. -/
structure IngestState where
  history_x : List String
  history_y : List PyFloat
  csv_rows : List (String × PyFloat)
deriving DecidableEq

/-- Observable operation on the durable CSV log: one row appended
(`csv_writer.writerow`, line 444) or one forced flush
(`csv_file.flush()`, line 455). -/
inductive LogEvent where
  | append (row : String × PyFloat)
  | flush
deriving DecidableEq

/-- Result of one invocation of `update_graph`'s read phase: the state
after the tick, the buffered lines left unread, and the sequence of
durable-log operations the tick performed. -/
structure TickResult where
  state : IngestState
  remaining : List (List Nat)
  events : List LogEvent
deriving DecidableEq

/-- What one buffered line does inside the drain loop (`Reciever.py`
lines 434-437): a strict decode failure (`UnicodeDecodeError`, a
subclass of `ValueError`) or a `float` parse failure both raise
`ValueError`; an empty stripped line is skipped by `continue`; otherwise
the line yields a numeric value. -/
inductive LineOutcome where
  | empty
  | value (v : PyFloat)
  | err
deriving DecidableEq

/-- Classify one raw buffered line exactly as `update_graph` line 435-437
does: strict UTF-8 decode, strip, skip if empty, then `float(raw)`. -/
def classifyLine (l : List Nat) : LineOutcome :=
  match utf8Decode? l with
  | none => .err
  | some s =>
    let raw := pyStrip s
    if raw = "" then .empty
    else
      match pyFloat? raw with
      | some v => .value v
      | none => .err

/-- Accept one sample (`Reciever.py` lines 439-444): timestamp it at the
moment of acceptance and append it to both history sequences and to the
CSV rows, in one step.  The pair of timestamp strings produced by the
two `datetime.now().strftime` calls is supplied by `clock`, indexed by
how many samples have been accepted so far. -/
def pushSample (clock : Nat → String × String) (v : PyFloat) (st : IngestState) :
    IngestState :=
  { history_x := st.history_x ++ [(clock st.history_y.length).1]
  , history_y := st.history_y ++ [v]
  , csv_rows := st.csv_rows ++ [((clock st.history_y.length).2, v)] }

/-- The drain loop of `update_graph` (`Reciever.py` lines 431-452): read
buffered lines one after another; a line that raises `ValueError`
(garbage or undecodable bytes) is caught by the handler at line 447,
which sits outside the `while`, so the loop stops there and the lines
not yet read stay in the serial buffer (`remaining`).  Each accepted
sample is pushed to both histories, written to the CSV, and recorded as
an append event. -/
def runTick (clock : Nat → String × String) :
    List (List Nat) → IngestState → TickResult
  | [], st => ⟨st, [], []⟩
  | l :: rest, st =>
    match classifyLine l with
    | .err => ⟨st, rest, []⟩
    | .empty => runTick clock rest st
    | .value v =>
      let row := ((clock st.history_y.length).2, v)
      let r := runTick clock rest (pushSample clock v st)
      ⟨r.state, r.remaining, .append row :: r.events⟩

/-- One full `update_graph` read-and-log phase: the drain loop followed
by the unconditional `csv_file.flush()` at line 455, which runs once per
tick, after the loop. -/
def update_graph_tick (clock : Nat → String × String) (buf : List (List Nat))
    (st : IngestState) : TickResult :=
  let r := runTick clock buf st
  ⟨r.state, r.remaining, r.events ++ [.flush]⟩

/-- Model of numpy's `linspace a b num` (`Reciever.py` line 472): `num`
evenly spaced points from `a` to `b` inclusive, as exact rationals
(numpy's float64 rounding is immaterial here).  Used only with
`num = 300`. -/
def linspace (a b : ℚ) (num : Nat) : List ℚ :=
  (List.range num).map fun i : Nat => a + (i : ℚ) * (b - a) / ((num : ℚ) - 1)

/-- The render phase of `update_graph` (`Reciever.py` lines 468-486),
with scipy's `make_interp_spline` treated as an oracle: `spl = some f`
means the spline fit succeeded and evaluates as `f`; `spl = none` means
it raised, which the `except` at line 480 catches, falling back to the
raw polyline.  When smoothing is off or the window has at most 3 points
the raw `(index, value)` pairs are plotted unchanged. -/
def renderSeries {α : Type} (smoothOn : Bool) (viewY : List α)
    (spl : Option (ℚ → α)) : List ℚ × List α :=
  let n := viewY.length
  let xIndices : List ℚ := (List.range n).map fun i : Nat => (i : ℚ)
  if smoothOn = true ∧ 3 < n then
    match spl with
    | some f =>
      let xSmooth := linspace 0 ((n : ℚ) - 1) 300
      (xSmooth, xSmooth.map f)
    | none => (xIndices, viewY)
  else (xIndices, viewY)

/-- The view-window selection of `update_graph` (`Reciever.py` lines
463-464): `start = max(0, len(history) - width)`, then the slice
`history[start:]`. -/
def viewWindow {α : Type} (hist : List α) (width : Int) : List α :=
  hist.drop (max 0 ((hist.length : Int) - width)).toNat

/-- The whole post-read part of `update_graph` (`Reciever.py` lines
459-486): if the history is empty the function returns without
rendering (line 459); otherwise the window start is computed from the
length of `full_history_x` and both histories are sliced with it, and
the windowed values are rendered (optionally smoothed). -/
def update_graph_render {α : Type} (smoothOn : Bool) (hist_x : List String)
    (hist_y : List α) (width : Int) (spl : Option (ℚ → α)) :
    Option (List String × List ℚ × List α) :=
  if hist_x = [] then none
  else
    let start := (max 0 ((hist_x.length : Int) - width)).toNat
    some (hist_x.drop start, renderSeries smoothOn (hist_y.drop start) spl)

/-- The three configuration values written by `apply_settings`
(`Reciever.py` lines 41-43): `current_y_min`, `current_y_max`,
`current_window_width`. -/
structure Settings where
  y_min : PyFloat
  y_max : PyFloat
  window_width : Int
deriving DecidableEq

/-- Model of Python's `>=` on floats, with IEEE semantics for the
non-finite values: every comparison with NaN is false. -/
def pyGe : PyFloat → PyFloat → Bool
  | .nan, _ => false
  | _, .nan => false
  | .inf b1, .inf b2 => b1 = false ∨ b2 = true
  | .inf b, .finite _ => b = false
  | .finite _, .inf b => b = true
  | .finite a, .finite b => b ≤ a

/-- Model of `apply_settings` (`Reciever.py` lines 299-322): parse the
three entry strings (`float`, `float`, `int`); any `ValueError` is
caught and nothing is assigned; `new_min >= new_max` or `new_width < 2`
returns early with nothing assigned; only when every check passes are
all three globals updated. -/
def apply_settings (st : Settings) (minS maxS widthS : String) : Settings :=
  match pyFloat? minS, pyFloat? maxS, pyInt? widthS with
  | some new_min, some new_max, some new_width =>
    if pyGe new_min new_max then st
    else if new_width < 2 then st
    else ⟨new_min, new_max, new_width⟩
  | _, _, _ => st

/-- Fixed concrete clock used for concrete evaluations of the tick. -/
def clk0 : Nat → String × String :=
  fun _ => ("00:00:00", "2024-01-01 00:00:00.000")

/-- The empty ingestion state (start of a session). -/
def st0 : IngestState := ⟨[], [], []⟩

/-- The drain loop only ever appends to the two history sequences, and
appends to both in equal number. -/
theorem runTick_appends (clock : Nat → String × String) (buf : List (List Nat))
    (st : IngestState) :
    ∃ tx ty, (runTick clock buf st).state.history_x = st.history_x ++ tx
      ∧ (runTick clock buf st).state.history_y = st.history_y ++ ty
      ∧ tx.length = ty.length := by
  induction buf generalizing st with
  | nil => exact ⟨[], [], by simp [runTick], by simp [runTick], rfl⟩
  | cons l rest ih =>
    cases hcl : classifyLine l with
    | err => exact ⟨[], [], by simp [runTick, hcl], by simp [runTick, hcl], rfl⟩
    | empty =>
      obtain ⟨tx, ty, hx, hy, hlen⟩ := ih st
      exact ⟨tx, ty, by simp [runTick, hcl, hx], by simp [runTick, hcl, hy], hlen⟩
    | value v =>
      obtain ⟨tx, ty, hx, hy, hlen⟩ := ih (pushSample clock v st)
      refine ⟨(clock st.history_y.length).1 :: tx, v :: ty, ?_, ?_, by simp [hlen]⟩
      · simp only [runTick, hcl]
        rw [hx]
        simp [pushSample]
      · simp only [runTick, hcl]
        rw [hy]
        simp [pushSample]

/-- C3: the endpoint validator returns the open connection iff the port
opens, at least one byte is waiting after the settle delay, and at least
2 of the line reads parse as floats; in every other case it returns no
match and the handle, if one was opened, has been closed; the
spec's two concrete examples behave as stated, and a port with no bytes
after the settle delay is always rejected. -/
theorem check_port_accepts_iff (port : String) (openOk : Bool) (inWaiting : Nat)
    (reads : List (List Nat)) :
    ((check_port_for_data port openOk inWaiting reads).result.isSome = true
      ↔ openOk = true ∧ 0 < inWaiting ∧ 2 ≤ countValidFloats reads)
    ∧ ((check_port_for_data port openOk inWaiting reads).result = none →
        (check_port_for_data port openOk inWaiting reads).opened = true →
        (check_port_for_data port openOk inWaiting reads).closed = true)
    ∧ ((check_port_for_data port openOk inWaiting reads).result.isSome = true →
        (check_port_for_data port openOk inWaiting reads).result = some port
        ∧ (check_port_for_data port openOk inWaiting reads).closed = false)
    ∧ (check_port_for_data "P" true 3
        [ascii "21.5", ascii "garbage", ascii "22.1", ascii "bad"]).result = some "P"
    ∧ (check_port_for_data "P" true 3
        [ascii "x", ascii "y", ascii "z", ascii "w"]).result = none
    ∧ (check_port_for_data port openOk 0 reads).result = none := by
  refine ⟨?_, ?_, ?_, by decide, by decide, ?_⟩
  · unfold check_port_for_data
    split_ifs with h1 h2 h3
    all_goals simp_all
    all_goals omega
  · unfold check_port_for_data
    split_ifs <;> simp_all
  · unfold check_port_for_data
    split_ifs <;> simp_all
  · unfold check_port_for_data
    split_ifs <;> simp_all

/-- Witness for `check_port_accepts_iff` at a concrete accepted input. -/
theorem check_port_accepts_iff_witness :
    (check_port_for_data "COM7" true 5
      [ascii "21.5", ascii "garbage", ascii "22.1", ascii "bad"]).result.isSome = true :=
  (check_port_accepts_iff "COM7" true 5
      [ascii "21.5", ascii "garbage", ascii "22.1", ascii "bad"]).1.mpr
    ⟨rfl, by norm_num, by decide⟩

/-- C10: non-finite numeric literals pass both validation and ingestion:
`float("nan")`, `float("inf")`, `float("-inf")` succeed, a port emitting
only such tokens is accepted by the validator, and an ingestion tick
records a `nan` line in the history buffer and the CSV log — no
finiteness filter exists. -/
theorem nonfinite_tokens_accepted :
    pyFloat? "nan" = some .nan
    ∧ pyFloat? "inf" = some (.inf false)
    ∧ pyFloat? "-inf" = some (.inf true)
    ∧ (check_port_for_data "P" true 4
        [ascii "nan", ascii "inf", ascii "-inf", ascii "nan"]).result = some "P"
    ∧ (runTick clk0 [ascii "nan"] st0).state.history_y = [.nan]
    ∧ (runTick clk0 [ascii "nan"] st0).state.csv_rows
        = [("2024-01-01 00:00:00.000", .nan)]
    ∧ (runTick clk0 [ascii "nan"] st0).state.history_x = ["00:00:00"] := by
  decide

/-- C9: the two parallel history sequences keep equal length across an
ingestion tick, and each accepted sample is appended to both sequences
(and only appended) in the same single step. -/
theorem history_lengths_stay_equal (clock : Nat → String × String)
    (buf : List (List Nat)) (st : IngestState)
    (h : st.history_x.length = st.history_y.length) :
    (runTick clock buf st).state.history_x.length
      = (runTick clock buf st).state.history_y.length
    ∧ ∀ v st', (pushSample clock v st').history_x.length = st'.history_x.length + 1
      ∧ (pushSample clock v st').history_y.length = st'.history_y.length + 1 := by
  constructor
  · obtain ⟨tx, ty, hx, hy, hlen⟩ := runTick_appends clock buf st
    rw [hx, hy]
    simp [h, hlen]
  · intro v st'
    simp [pushSample]

/-- Witness for `history_lengths_stay_equal` at a concrete tick. -/
theorem history_lengths_stay_equal_witness :
    (runTick clk0 [ascii "23", ascii "bad", ascii "24"] st0).state.history_x.length
      = (runTick clk0 [ascii "23", ascii "bad", ascii "24"] st0).state.history_y.length :=
  (history_lengths_stay_equal clk0 [ascii "23", ascii "bad", ascii "24"] st0 rfl).1

/-- C7: the view window is the suffix of the history of length
`min k N`, in insertion order; on an empty history the update step
renders nothing; and window selection never truncates the stored
history (the tick only appends to it). -/
theorem view_window_is_last_min (hist : List String) (k : Nat) :
    viewWindow hist (k : Int) = hist.drop (hist.length - k)
    ∧ (viewWindow hist (k : Int)).length = min k hist.length
    ∧ (viewWindow hist (k : Int)).IsSuffix hist
    ∧ (∀ (smoothOn : Bool) (hist_y : List PyFloat) (w : Int)
        (spl : Option (ℚ → PyFloat)),
        update_graph_render smoothOn [] hist_y w spl = none)
    ∧ (∀ clock buf st, ∃ tx ty,
        (runTick clock buf st).state.history_x = st.history_x ++ tx
        ∧ (runTick clock buf st).state.history_y = st.history_y ++ ty) := by
  have hstart : (max 0 ((hist.length : Int) - (k : Int))).toNat = hist.length - k := by
    omega
  refine ⟨?_, ?_, ?_, ?_, ?_⟩
  · rw [viewWindow, hstart]
  · rw [viewWindow, hstart]
    simp [List.length_drop]
    omega
  · rw [viewWindow, hstart]
    exact List.drop_suffix _ _
  · intro smoothOn hist_y w spl
    simp [update_graph_render]
  · intro clock buf st
    obtain ⟨tx, ty, hx, hy, _⟩ := runTick_appends clock buf st
    exact ⟨tx, ty, hx, hy⟩

/-- Value of `linspace` at an index below `num`. -/
theorem linspace_getD (a b : ℚ) (num i : Nat) (h : i < num) :
    (linspace a b num).getD i 0 = a + (i : ℚ) * (b - a) / ((num : ℚ) - 1) := by
  rw [linspace, List.getD_eq_getElem?_getD, List.getElem?_map, List.getElem?_range h]
  rfl

/-- C6: with smoothing on and more than 3 window points, the rendered
series is the spline evaluated at the 300 evenly spaced points of
`linspace 0 (n-1) 300` (length 300, endpoints 0 and `n-1`, constant
step `(n-1)/299`); with smoothing off, with at most 3 points, or when
the spline fit raises (`spl = none`), the rendered series is exactly the
original `(index, value)` pairs, so no smoothing failure escapes the
update step. -/
theorem smoothing_branch (α : Type) (smoothOn : Bool) (viewY : List α)
    (f : ℚ → α) :
    (smoothOn = true → 3 < viewY.length →
      renderSeries smoothOn viewY (some f)
        = (linspace 0 ((viewY.length : ℚ) - 1) 300,
           (linspace 0 ((viewY.length : ℚ) - 1) 300).map f)
      ∧ (linspace 0 ((viewY.length : ℚ) - 1) 300).length = 300
      ∧ (linspace 0 ((viewY.length : ℚ) - 1) 300).getD 0 0 = 0
      ∧ (linspace 0 ((viewY.length : ℚ) - 1) 300).getD 299 0 = (viewY.length : ℚ) - 1
      ∧ (∀ i, i + 1 < 300 →
          (linspace 0 ((viewY.length : ℚ) - 1) 300).getD (i + 1) 0
            - (linspace 0 ((viewY.length : ℚ) - 1) 300).getD i 0
          = ((viewY.length : ℚ) - 1) / 299))
    ∧ (smoothOn = false →
        renderSeries smoothOn viewY (some f)
          = ((List.range viewY.length).map fun i : Nat => (i : ℚ), viewY))
    ∧ (viewY.length ≤ 3 →
        renderSeries smoothOn viewY (some f)
          = ((List.range viewY.length).map fun i : Nat => (i : ℚ), viewY))
    ∧ renderSeries smoothOn viewY none
        = ((List.range viewY.length).map fun i : Nat => (i : ℚ), viewY) := by
  refine ⟨?_, ?_, ?_, ?_⟩
  · intro hs hn
    refine ⟨by simp [renderSeries, hs, hn],
      by simp only [linspace, List.length_map, List.length_range], ?_, ?_, ?_⟩
    · rw [linspace_getD _ _ _ _ (by norm_num)]
      norm_num
    · rw [linspace_getD _ _ _ _ (by norm_num)]
      push_cast
      field_simp
      ring
    · intro i hi
      rw [linspace_getD _ _ _ _ hi, linspace_getD _ _ _ _ (by omega)]
      push_cast
      ring
  · intro hs
    simp [renderSeries, hs]
  · intro hn
    simp [renderSeries, Nat.not_lt.mpr hn]
  · by_cases h : smoothOn = true ∧ 3 < viewY.length
    · simp [renderSeries, h]
    · simp [renderSeries, h]

/-- Witness for `smoothing_branch`: a 2-point window is rendered
unchanged (the spec's own smoothing example). -/
theorem smoothing_branch_witness :
    renderSeries true ([.nan, .nan] : List PyFloat) (some fun _ => PyFloat.nan)
      = ((List.range ([PyFloat.nan, PyFloat.nan] : List PyFloat).length).map
          fun i : Nat => (i : ℚ), [PyFloat.nan, PyFloat.nan]) :=
  (smoothing_branch PyFloat true [.nan, .nan] fun _ => PyFloat.nan).2.2.1 (by norm_num)

/-- C8: `apply_settings` is all-or-nothing: when all three entries parse
and pass validation all three configuration values are replaced, and in
every other case (a parse failure, `min >= max`, or `width < 2`) the
settings are returned unchanged; consequently `window_width ≥ 2` is
preserved by every settings update. -/
theorem apply_settings_atomic (st : Settings) (minS maxS widthS : String) :
    (∀ nm nx nw, pyFloat? minS = some nm → pyFloat? maxS = some nx →
        pyInt? widthS = some nw → pyGe nm nx = false → ¬ nw < 2 →
        apply_settings st minS maxS widthS = ⟨nm, nx, nw⟩)
    ∧ ((pyFloat? minS = none ∨ pyFloat? maxS = none ∨ pyInt? widthS = none
        ∨ (∃ nm nx, pyFloat? minS = some nm ∧ pyFloat? maxS = some nx
            ∧ pyGe nm nx = true)
        ∨ (∃ nw, pyInt? widthS = some nw ∧ nw < 2)) →
        apply_settings st minS maxS widthS = st)
    ∧ (2 ≤ st.window_width → 2 ≤ (apply_settings st minS maxS widthS).window_width) := by
  refine ⟨?_, ?_, ?_⟩
  · intro nm nx nw h1 h2 h3 h4 h5
    simp [apply_settings, h1, h2, h3, h4, h5]
  · intro hbad
    unfold apply_settings
    rcases hm : pyFloat? minS with _ | nm <;> rcases hx : pyFloat? maxS with _ | nx <;>
      rcases hw : pyInt? widthS with _ | nw <;> try rfl
    rcases hbad with h | h | h | ⟨a, b, ha, hb, hge⟩ | ⟨w, hw2, hlt⟩
    · simp [hm] at h
    · simp [hx] at h
    · simp [hw] at h
    · rw [hm] at ha
      rw [hx] at hb
      cases ha
      cases hb
      simp [hge]
    · rw [hw] at hw2
      cases hw2
      by_cases hge : pyGe nm nx = true
      · simp [hge]
      · simp [hge, hlt]
  · intro h2
    unfold apply_settings
    rcases pyFloat? minS with _ | nm <;> rcases pyFloat? maxS with _ | nx <;>
      rcases pyInt? widthS with _ | nw <;> try exact h2
    dsimp only
    split_ifs with hge hlt
    · exact h2
    · exact h2
    · simpa using hlt

/-- Witness for `apply_settings_atomic` at concrete valid entries. -/
theorem apply_settings_atomic_witness :
    apply_settings ⟨.finite 15, .finite 35, 50⟩ "10" "20" "5"
      = ⟨.finite 10, .finite 20, 5⟩ :=
  (apply_settings_atomic ⟨.finite 15, .finite 35, 50⟩ "10" "20" "5").1
    (.finite 10) (.finite 20) 5 (by decide) (by decide) (by decide) (by decide)
    (by decide)

/-- Counterexample to C1 as stated: with the spec's own three lines
buffered in one tick, `"23.55"` parses as a number yet is neither
appended to the history nor to the CSV in that tick — the `ValueError`
raised by `"not-a-number"` aborts the drain loop (the handler at
`Reciever.py` line 447 is outside the `while`), leaving `"23.55"` in the
serial buffer. -/
theorem parse_failure_aborts_tick_cex :
    (pyFloat? "23.55").isSome = true
    ∧ (runTick clk0 [ascii "23.40", ascii "not-a-number", ascii "23.55"] st0).state.history_y.length = 1
    ∧ (runTick clk0 [ascii "23.40", ascii "not-a-number", ascii "23.55"] st0).state.csv_rows.length = 1
    ∧ (runTick clk0 [ascii "23.40", ascii "not-a-number", ascii "23.55"] st0).remaining
        = [ascii "23.55"] := by
  decide

/-- C1 (amended): a parse failure on one buffered line aborts the rest
of the drain loop for that tick: lines before the failing one are
ingested normally, the failing line is consumed and discarded, and the
lines after it are left in the serial buffer for later ticks; the
`ValueError` does not escape the tick. -/
theorem parse_failure_aborts_tick (clock : Nat → String × String)
    (st : IngestState) (pre post : List (List Nat)) (bad : List Nat)
    (hpre : ∀ l ∈ pre, classifyLine l ≠ .err)
    (hbad : classifyLine bad = .err) :
    runTick clock (pre ++ bad :: post) st
      = ⟨(runTick clock pre st).state, post, (runTick clock pre st).events⟩ := by
  induction pre generalizing st with
  | nil => simp [runTick, hbad]
  | cons l rest ih =>
    have hrest : ∀ x ∈ rest, classifyLine x ≠ .err := fun x hx => hpre x (by simp [hx])
    cases hcl : classifyLine l with
    | err => exact absurd hcl (hpre l (by simp))
    | empty => simpa [runTick, hcl] using ih st hrest
    | value v => simp [runTick, hcl, ih (pushSample clock v st) hrest]

/-- Witness for `parse_failure_aborts_tick` at the concrete buffer. -/
theorem parse_failure_aborts_tick_witness :
    runTick clk0 [ascii "23.40", ascii "not-a-number", ascii "23.55"] st0
      = ⟨(runTick clk0 [ascii "23.40"] st0).state, [ascii "23.55"],
         (runTick clk0 [ascii "23.40"] st0).events⟩ :=
  parse_failure_aborts_tick clk0 st0 [ascii "23.40"] [ascii "23.55"]
    (ascii "not-a-number") (by decide) (by decide)

/-- Counterexample to C2 as stated: in a tick with two buffered samples
the event sequence on the CSV log is append, append, flush — the first
append is not followed by a flush before the second sample is processed;
`csv_file.flush()` (line 455) runs once per tick, after the drain loop. -/
theorem flush_per_append_cex :
    (update_graph_tick clk0 [ascii "23", ascii "24"] st0).events
      = [.append ("2024-01-01 00:00:00.000", .finite 23),
         .append ("2024-01-01 00:00:00.000", .finite 24), .flush]
    ∧ (update_graph_tick clk0 [ascii "23", ascii "24"] st0).events.getD 1 .flush
        ≠ .flush := by
  decide

/-- C2 (amended): each accepted sample produces one CSV row append, and
the forced flush happens exactly once per tick, after all the tick's
appends (so durability is per tick, not per individual append); the
appends recorded in the tick's events are exactly the rows added to the
log. -/
theorem flush_once_per_tick (clock : Nat → String × String)
    (buf : List (List Nat)) (st : IngestState) :
    (update_graph_tick clock buf st).events
      = (runTick clock buf st).events ++ [.flush]
    ∧ (∀ e ∈ (runTick clock buf st).events, e ≠ .flush)
    ∧ (runTick clock buf st).state.csv_rows
      = st.csv_rows ++ (runTick clock buf st).events.filterMap
          (fun e => match e with | .append row => some row | .flush => none) := by
  refine ⟨rfl, ?_, ?_⟩
  · induction buf generalizing st with
    | nil => simp [runTick]
    | cons l rest ih =>
      cases hcl : classifyLine l with
      | err => simp [runTick, hcl]
      | empty => simpa [runTick, hcl] using ih st
      | value v =>
        intro e he
        simp only [runTick, hcl, List.mem_cons] at he
        rcases he with he | he
        · simp [he]
        · exact ih (pushSample clock v st) e he
  · induction buf generalizing st with
    | nil => simp [runTick]
    | cons l rest ih =>
      cases hcl : classifyLine l with
      | err => simp [runTick, hcl]
      | empty => simpa [runTick, hcl] using ih st
      | value v =>
        simp only [runTick, hcl, List.filterMap_cons]
        rw [ih (pushSample clock v st)]
        simp [pushSample]

/-- Witness for `flush_once_per_tick` at a concrete tick. -/
theorem flush_once_per_tick_witness :
    (update_graph_tick clk0 [ascii "23"] st0).events
      = (runTick clk0 [ascii "23"] st0).events ++ [.flush] :=
  (flush_once_per_tick clk0 [ascii "23"] st0).1

/-- Counterexample to C5 as stated: the ingestion loop decodes with
strict `.decode('utf-8')` (line 435), so the malformed line
`[0x32, 0xFF]` raises `UnicodeDecodeError` instead of being ingested
via a best-effort representation — the tick drops the line and defers
the rest of the buffer, whereas the best-effort decode `"2"` (which only
the validator at line 145 uses) would have parsed as a number. -/
theorem decode_fallback_cex :
    utf8Decode? [0x32, 0xFF] = none
    ∧ runTick clk0 [[0x32, 0xFF], ascii "23"] st0 = ⟨st0, [ascii "23"], []⟩
    ∧ utf8DecodeIgnore [0x32, 0xFF] = "2"
    ∧ (pyFloat? (utf8DecodeIgnore [0x32, 0xFF])).isSome = true := by
  decide

/-- C5 (amended): only the validator decodes best-effort
(`errors='ignore'`, never raising, so a malformed read cannot reduce
the count of valid floats from the other reads); in the ingestion loop
decoding is strict, and a malformed line raises `UnicodeDecodeError`
(a `ValueError`), which the per-tick handler catches: the line is
dropped with no fallback representation, the remaining buffered lines
are deferred, and the error does not escape the tick. -/
theorem decode_error_handling (clock : Nat → String × String) (st : IngestState)
    (bad : List Nat) (post : List (List Nat)) (reads : List (List Nat))
    (hbad : utf8Decode? bad = none) :
    classifyLine bad = .err
    ∧ runTick clock (bad :: post) st = ⟨st, post, []⟩
    ∧ countValidFloats reads ≤ countValidFloats (bad :: reads) := by
  have herr : classifyLine bad = .err := by simp [classifyLine, hbad]
  refine ⟨herr, by simp [runTick, herr], ?_⟩
  have hc : countValidFloats (bad :: reads)
      = if pyStrip (utf8DecodeIgnore bad) = "" then countValidFloats reads
        else (if (pyFloat? (pyStrip (utf8DecodeIgnore bad))).isSome then 1 else 0)
          + countValidFloats reads := rfl
  rw [hc]
  split_ifs <;> omega

/-- Witness for `decode_error_handling` at the malformed line. -/
theorem decode_error_handling_witness :
    runTick clk0 [[0x32, 0xFF], ascii "23"] st0 = ⟨st0, [ascii "23"], []⟩ :=
  (decode_error_handling clk0 st0 [0x32, 0xFF] [ascii "23"] [] (by decide)).2.1

/-- Value of a decimal digit character produced by `Nat.digitChar`. -/
theorem digitChar_val : ∀ m, m < 10 → (Nat.digitChar m).toNat - 48 = m := by decide

/-- Characters produced by `Nat.digitChar` below 10 are digits. -/
theorem digitChar_isDigit : ∀ m, m < 10 → (Nat.digitChar m).isDigit = true := by decide

/-- Appending one digit multiplies the accumulated value by 10. -/
theorem digitsToNat_concat (xs : List Char) (c : Char) :
    digitsToNat (xs ++ [c]) = 10 * digitsToNat xs + (c.toNat - 48) := by
  simp [digitsToNat, List.foldl_append]

/-- The accumulator of `Nat.toDigitsCore` is a plain suffix. -/
theorem toDigitsCore_shift (fuel : Nat) : ∀ (n : Nat) (ds : List Char),
    Nat.toDigitsCore 10 fuel n ds = Nat.toDigitsCore 10 fuel n [] ++ ds := by
  induction fuel with
  | zero => intro n ds; simp [Nat.toDigitsCore]
  | succ fuel ih =>
    intro n ds
    simp only [Nat.toDigitsCore]
    by_cases h : n / 10 = 0
    · simp [h]
    · simp only [h, if_false]
      rw [ih (n / 10) [Nat.digitChar (n % 10)], ih (n / 10) (Nat.digitChar (n % 10) :: ds)]
      simp

/-- Reading back the decimal digits of `n` yields `n`, given enough fuel. -/
theorem digitsToNat_toDigitsCore (fuel : Nat) : ∀ n : Nat, n < 10 ^ fuel →
    digitsToNat (Nat.toDigitsCore 10 fuel n []) = n := by
  induction fuel with
  | zero =>
    intro n hn
    interval_cases n
    simp [Nat.toDigitsCore, digitsToNat]
  | succ fuel ih =>
    intro n hn
    simp only [Nat.toDigitsCore]
    by_cases h : n / 10 = 0
    · have h10 : n % 10 = n := by omega
      simp only [h, if_pos]
      show digitsToNat ([] ++ [Nat.digitChar (n % 10)]) = n
      rw [digitsToNat_concat, digitChar_val (n % 10) (by omega)]
      simp [digitsToNat, h10]
    · simp only [h, if_false]
      rw [toDigitsCore_shift, digitsToNat_concat,
        ih (n / 10) (by rw [Nat.div_lt_iff_lt_mul (by norm_num)]; rw [pow_succ] at hn; omega),
        digitChar_val (n % 10) (by omega)]
      omega

/-- Reading back the decimal representation of `n` yields `n`. -/
theorem digitsToNat_toString (n : Nat) : digitsToNat (toString n).data = n := by
  show digitsToNat (Nat.toDigits 10 n) = n
  exact digitsToNat_toDigitsCore (n + 1) n
    (lt_of_lt_of_le (Nat.lt_pow_self (by norm_num) n)
      (Nat.pow_le_pow_right (by norm_num) (Nat.le_succ n)))

/-- Decimal representations of naturals are injective. -/
theorem toString_nat_injective {m n : Nat} (h : toString m = toString n) : m = n := by
  rw [← digitsToNat_toString m, ← digitsToNat_toString n, h]

/-- Every character emitted by `Nat.toDigitsCore` is a digit or comes
from the accumulator. -/
theorem toDigitsCore_mem (fuel : Nat) : ∀ (n : Nat) (ds : List Char) (c : Char),
    c ∈ Nat.toDigitsCore 10 fuel n ds → c ∈ ds ∨ c.isDigit = true := by
  induction fuel with
  | zero => intro n ds c hc; exact Or.inl hc
  | succ fuel ih =>
    intro n ds c hc
    simp only [Nat.toDigitsCore] at hc
    by_cases h : n / 10 = 0
    · simp only [h, if_pos] at hc
      rcases List.mem_cons.mp hc with h1 | h1
      · exact Or.inr (h1 ▸ digitChar_isDigit (n % 10) (by omega))
      · exact Or.inl h1
    · simp only [h, if_false] at hc
      rcases ih (n / 10) (Nat.digitChar (n % 10) :: ds) c hc with h1 | h1
      · rcases List.mem_cons.mp h1 with h2 | h2
        · exact Or.inr (h2 ▸ digitChar_isDigit (n % 10) (by omega))
        · exact Or.inl h2
      · exact Or.inr h1

/-- The decimal representation of a natural is nonempty. -/
theorem toString_nat_ne_nil (n : Nat) : (toString n).data ≠ [] := by
  show Nat.toDigits 10 n ≠ []
  unfold Nat.toDigits Nat.toDigitsCore
  by_cases h : n / 10 = 0
  · simp [h]
  · simp only [h, if_false]
    rw [toDigitsCore_shift]
    simp

/-- Every character of the decimal representation of a natural is a digit. -/
theorem toString_nat_all_digits (n : Nat) :
    ((toString n).data.all Char.isDigit) = true := by
  rw [List.all_eq_true]
  intro c hc
  rcases toDigitsCore_mem (n + 1) n [] c hc with h | h
  · simp at h
  · exact h

/-- The numeric suffix of a brute-force candidate name is its index. -/
theorem numericSuffix_comName (i : Nat) : numericSuffix (comName i) = i := by
  have hdata : (comName i).data = 'C' :: 'O' :: 'M' :: (toString i).data := by
    show ("COM" ++ toString i).data = _
    rw [String.data_append]
    rfl
  unfold numericSuffix
  rw [hdata]
  simp only [List.drop]
  rw [if_pos ⟨toString_nat_ne_nil i, toString_nat_all_digits i⟩]
  exact digitsToNat_toString i

/-- Brute-force candidate names are injective in their index. -/
theorem comName_injective : Function.Injective comName := by
  intro i j h
  rw [← numericSuffix_comName i, ← numericSuffix_comName j, h]

/-- The brute-force names a run of `buildCandidates` appends: the
indices in `[1..M]` whose name is not host-reported, in ascending
order. -/
def bruteNames (sys : List String) (M : Nat) : List String :=
  ((List.range' 1 M).filter fun i => decide (comName i ∉ sys)).map comName

/-- The brute-force loop appends exactly the names of `bruteNames`, in
order, after the host-reported list. -/
theorem buildCandidates_eq (sys : List String) (M : Nat) :
    buildCandidates sys M = sys ++ bruteNames sys M := by
  induction M with
  | zero => simp [buildCandidates, bruteNames]
  | succ M ih =>
    unfold buildCandidates at ih ⊢
    rw [List.range'_concat, List.foldl_append, ih]
    simp only [one_mul, List.foldl_cons, List.foldl_nil]
    show addBrute (sys ++ bruteNames sys M) (1 + M) = _
    have hmem : comName (1 + M) ∈ sys ++ bruteNames sys M ↔ comName (1 + M) ∈ sys := by
      constructor
      · intro h
        rcases List.mem_append.mp h with h1 | h1
        · exact h1
        · exfalso
          obtain ⟨i, hi, hci⟩ := List.mem_map.mp h1
          have : i = 1 + M := comName_injective hci
          have := List.mem_range'_1.mp (List.mem_filter.mp hi).1
          omega
      · exact fun h => List.mem_append.mpr (Or.inl h)
    unfold addBrute
    by_cases h : comName (1 + M) ∈ sys
    · rw [if_pos (hmem.mpr h)]
      unfold bruteNames
      rw [List.range'_concat, List.filter_append]
      simp only [one_mul]
      have : List.filter (fun i => decide (comName i ∉ sys)) [1 + M] = [] := by
        simp [h]
      rw [this, List.append_nil]
    · rw [if_neg fun hc => h (hmem.mp hc)]
      unfold bruteNames
      rw [List.range'_concat, List.filter_append]
      simp only [one_mul]
      have : List.filter (fun i => decide (comName i ∉ sys)) [1 + M] = [1 + M] := by
        simp [h]
      rw [this]
      simp

/-- Membership in the de-duplicated list: present in the input and not
among the already-seen names. -/
theorem mem_dedupe (x : String) : ∀ (l seen : List String),
    x ∈ dedupe seen l ↔ x ∈ l ∧ x ∉ seen := by
  intro l
  induction l with
  | nil => intro seen; simp [dedupe]
  | cons y rest ih =>
    intro seen
    unfold dedupe
    by_cases h : y ∈ seen
    · rw [if_pos h, ih seen]
      constructor
      · exact fun ⟨h1, h2⟩ => ⟨List.mem_cons.mpr (Or.inr h1), h2⟩
      · rintro ⟨h1, h2⟩
        rcases List.mem_cons.mp h1 with h3 | h3
        · exact absurd (h3 ▸ h) h2
        · exact ⟨h3, h2⟩
    · rw [if_neg h]
      constructor
      · intro hx
        rcases List.mem_cons.mp hx with h3 | h3
        · exact ⟨h3 ▸ List.mem_cons_self y rest, h3 ▸ h⟩
        · have := (ih (y :: seen)).mp h3
          exact ⟨List.mem_cons.mpr (Or.inr this.1),
            fun hc => this.2 (List.mem_cons.mpr (Or.inr hc))⟩
      · rintro ⟨h1, h2⟩
        rcases List.mem_cons.mp h1 with h3 | h3
        · exact h3 ▸ List.mem_cons_self y _
        · by_cases hxy : x = y
          · exact hxy ▸ List.mem_cons_self y _
          · exact List.mem_cons.mpr (Or.inr ((ih (y :: seen)).mpr
              ⟨h3, fun hc => (List.mem_cons.mp hc).elim hxy h2⟩))

/-- De-duplication produces a list with no duplicates. -/
theorem nodup_dedupe : ∀ (l seen : List String), (dedupe seen l).Nodup := by
  intro l
  induction l with
  | nil => intro seen; simp [dedupe]
  | cons y rest ih =>
    intro seen
    unfold dedupe
    by_cases h : y ∈ seen
    · rw [if_pos h]; exact ih seen
    · rw [if_neg h]
      refine List.nodup_cons.mpr ⟨?_, ih (y :: seen)⟩
      intro hc
      exact ((mem_dedupe y rest (y :: seen)).mp hc).2 (List.mem_cons_self y seen)

/-- De-duplication only inspects membership of the seen accumulator. -/
theorem dedupe_congr : ∀ (l s1 s2 : List String),
    (∀ x, x ∈ s1 ↔ x ∈ s2) → dedupe s1 l = dedupe s2 l := by
  intro l
  induction l with
  | nil => intro s1 s2 _; rfl
  | cons y rest ih =>
    intro s1 s2 hs
    unfold dedupe
    by_cases h : y ∈ s1
    · rw [if_pos h, if_pos ((hs y).mp h)]
      exact ih s1 s2 hs
    · rw [if_neg h, if_neg fun hc => h ((hs y).mpr hc)]
      refine congrArg _ (ih (y :: s1) (y :: s2) fun x => ?_)
      simp [hs x]

/-- Unfolding equation of `dedupe` on a cons cell. -/
theorem dedupe_cons (seen : List String) (y : String) (rest : List String) :
    dedupe seen (y :: rest)
      = if y ∈ seen then dedupe seen rest else y :: dedupe (y :: seen) rest := rfl

/-- De-duplication distributes over append, with the first block joining
the seen set for the second. -/
theorem dedupe_append : ∀ (xs ys s : List String),
    dedupe s (xs ++ ys) = dedupe s xs ++ dedupe (xs ++ s) ys := by
  intro xs
  induction xs with
  | nil => intro ys s; rfl
  | cons x rest ih =>
    intro ys s
    rw [List.cons_append, dedupe_cons, dedupe_cons]
    by_cases h : x ∈ s
    · rw [if_pos h, if_pos h, ih ys s]
      refine congrArg _ (dedupe_congr ys _ _ fun z => ?_)
      constructor
      · intro hz
        rcases List.mem_append.mp hz with h1 | h1
        · exact List.mem_append.mpr (Or.inl (List.mem_cons.mpr (Or.inr h1)))
        · exact List.mem_append.mpr (Or.inr h1)
      · intro hz
        rcases List.mem_append.mp hz with h1 | h1
        · rcases List.mem_cons.mp h1 with h2 | h2
          · exact List.mem_append.mpr (Or.inr (h2 ▸ h))
          · exact List.mem_append.mpr (Or.inl h2)
        · exact List.mem_append.mpr (Or.inr h1)
    · rw [if_neg h, if_neg h, ih ys (x :: s), List.cons_append]
      refine congrArg _ (congrArg _ (dedupe_congr ys _ _ fun z => ?_))
      constructor
      · intro hz
        rcases List.mem_append.mp hz with h1 | h1
        · exact List.mem_cons.mpr (Or.inr (List.mem_append.mpr (Or.inl h1)))
        · rcases List.mem_cons.mp h1 with h2 | h2
          · exact List.mem_cons.mpr (Or.inl h2)
          · exact List.mem_cons.mpr (Or.inr (List.mem_append.mpr (Or.inr h2)))
      · intro hz
        rcases List.mem_cons.mp hz with h1 | h1
        · exact List.mem_append.mpr (Or.inr (h1 ▸ List.mem_cons_self x s))
        · rcases List.mem_append.mp h1 with h2 | h2
          · exact List.mem_append.mpr (Or.inl h2)
          · exact List.mem_append.mpr (Or.inr (List.mem_cons.mpr (Or.inr h2)))

/-- A duplicate-free list sharing nothing with the seen set is returned
unchanged by de-duplication. -/
theorem dedupe_eq_self : ∀ (l seen : List String),
    (∀ x ∈ l, x ∉ seen) → l.Nodup → dedupe seen l = l := by
  intro l
  induction l with
  | nil => intro seen _ _; rfl
  | cons y rest ih =>
    intro seen hsep hnd
    unfold dedupe
    rw [if_neg (hsep y (List.mem_cons_self y rest))]
    refine congrArg _ (ih (y :: seen) (fun x hx hc => ?_) (List.nodup_cons.mp hnd).2)
    rcases List.mem_cons.mp hc with h1 | h1
    · exact (List.nodup_cons.mp hnd).1 (h1 ▸ hx)
    · exact hsep x (List.mem_cons.mpr (Or.inr hx)) h1

/-- Counterexample to C4 as stated: with host-reported ports
`["COM2", "COM1"]` and brute-force maximum 1, every candidate is
host-reported, so the host group is the whole list — and it is not
ascending by numeric suffix, because `find_correct_port` keeps the
host-reported order and never sorts. -/
theorem enumerator_sorted_cex :
    find_correct_port_candidates ["COM2", "COM1"] 1 = ["COM2", "COM1"]
    ∧ "COM2" ∈ (["COM2", "COM1"] : List String)
    ∧ "COM1" ∈ (["COM2", "COM1"] : List String)
    ∧ ¬ List.Pairwise (fun a b => numericSuffix a ≤ numericSuffix b)
        (find_correct_port_candidates ["COM2", "COM1"] 1) := by
  decide

/-- C4 (amended): the candidate list is the de-duplicated host-reported
names (in host-reported order, not sorted) followed by every brute-force
name `COM1..COMM` not already present; each host-reported name occurs
exactly once, each not-already-present brute-force name occurs exactly
once, the host group precedes the brute-force group and contains only
host-reported names, and the brute-force group (but not the host group)
is ascending by numeric suffix. -/
theorem enumerator_output (sys : List String) (M : Nat) :
    find_correct_port_candidates sys M = dedupe [] sys ++ bruteNames sys M
    ∧ (∀ x ∈ sys, (find_correct_port_candidates sys M).count x = 1)
    ∧ (∀ k, 1 ≤ k → k ≤ M → comName k ∉ sys →
        (find_correct_port_candidates sys M).count (comName k) = 1)
    ∧ (∀ x ∈ dedupe [] sys, x ∈ sys)
    ∧ List.Pairwise (fun a b => numericSuffix a < numericSuffix b)
        (bruteNames sys M) := by
  have hsep : ∀ x ∈ bruteNames sys M, x ∉ sys := by
    intro x hx
    obtain ⟨i, hi, rfl⟩ := List.mem_map.mp hx
    simpa using (List.mem_filter.mp hi).2
  have hnodup : (bruteNames sys M).Nodup :=
    List.Nodup.map comName_injective ((List.nodup_range' 1 M).filter _)
  have h0 : find_correct_port_candidates sys M
      = dedupe [] sys ++ bruteNames sys M := by
    unfold find_correct_port_candidates
    rw [buildCandidates_eq, dedupe_append]
    refine congrArg _ ?_
    calc dedupe (sys ++ []) (bruteNames sys M)
        = dedupe sys (bruteNames sys M) := dedupe_congr _ _ _ (by simp)
      _ = bruteNames sys M := dedupe_eq_self _ sys hsep hnodup
  refine ⟨h0, ?_, ?_, ?_, ?_⟩
  · intro x hx
    rw [h0, List.count_append]
    have h1 : (dedupe [] sys).count x = 1 :=
      List.count_eq_one_of_mem (nodup_dedupe sys [])
        ((mem_dedupe x sys []).mpr ⟨hx, by simp⟩)
    have h2 : (bruteNames sys M).count x = 0 :=
      List.count_eq_zero.mpr fun hc => hsep x hc hx
    omega
  · intro k hk1 hk2 hks
    rw [h0, List.count_append]
    have h1 : (dedupe [] sys).count (comName k) = 0 :=
      List.count_eq_zero.mpr fun hc => hks ((mem_dedupe _ sys []).mp hc).1
    have h2 : (bruteNames sys M).count (comName k) = 1 := by
      refine List.count_eq_one_of_mem hnodup ?_
      refine List.mem_map.mpr ⟨k, ?_, rfl⟩
      exact List.mem_filter.mpr
        ⟨List.mem_range'_1.mpr ⟨hk1, by omega⟩, by simpa using hks⟩
    omega
  · exact fun x hx => ((mem_dedupe x sys []).mp hx).1
  · have hp : List.Pairwise (· < ·)
        ((List.range' 1 M).filter fun i => decide (comName i ∉ sys)) :=
      (List.pairwise_lt_range' 1 M).filter _
    unfold bruteNames
    rw [List.pairwise_map]
    exact hp.imp fun {a b} hab => by
      rw [numericSuffix_comName, numericSuffix_comName]; exact hab

/-- Witness for `enumerator_output` at concrete host ports. -/
theorem enumerator_output_witness :
    (find_correct_port_candidates ["COM7", "COM3"] 2).count "COM7" = 1 :=
  (enumerator_output ["COM7", "COM3"] 2).2.1 "COM7" (by decide)
